import Mathlib

/-!
Shallow embedding of the PDF outline extractor (src/Main.py) and a
verification of the specification's claims about it.

Modelling conventions:
* Python `str` values are `List Char`; `str.strip`, `str.split`,
  `str.lower`, `str.replace`, `str.startswith`, `str.endswith` are
  embedded as executable functions below (ASCII-faithful where Python
  consults Unicode tables).
* Python floats (font sizes, bounding-box coordinates, page height) are
  embedded as exact rationals `ℚ`; the literals `0.1`, `0.9`, `0.8`
  become `1/10`, `9/10`, `4/5`.
* `fitz.open` either raises or yields a document, embedded as
  `Except String Doc`; a raised exception inside the pipeline is an
  `Except.error`.
-/

deriving instance DecidableEq for Except

namespace Main

/-! ### Python string primitives -/

/-- ASCII whitespace as recognised by Python `str.strip` / `str.split`. -/
def isPySpace (c : Char) : Bool :=
  c = ' ' || c = '\t' || c = '\n' || c = '\r' || c = '\x0b' || c = '\x0c'

/-- Python `str.strip()`: drop leading and trailing whitespace. -/
def pyStrip (l : List Char) : List Char :=
  ((l.dropWhile isPySpace).reverse.dropWhile isPySpace).reverse

/-- Accumulator-based splitter behind `pyWords` (`acc` holds the current
word reversed). -/
def pyWordsAux : List Char → List Char → List (List Char)
  | [], acc => if acc.isEmpty then [] else [acc.reverse]
  | c :: rest, acc =>
    if isPySpace c then
      if acc.isEmpty then pyWordsAux rest [] else acc.reverse :: pyWordsAux rest []
    else pyWordsAux rest (c :: acc)

/-- Python `str.split()` with no argument: maximal runs of
non-whitespace characters; no empty words. -/
def pyWords (l : List Char) : List (List Char) := pyWordsAux l []

/-- Python `str.lower()` (ASCII case mapping). -/
def pyLower (l : List Char) : List Char := l.map Char.toLower

/-- Python `str.isprintable()` restricted to ASCII: space is printable,
other whitespace and control characters are not. -/
def pyPrintableChar (c : Char) : Bool :=
  c = ' ' || (!c.isWhitespace && 32 ≤ c.toNat && c.toNat ≠ 127)

/-- Python `txt.isprintable()` over all characters (true on `[]`, as in
Python where `''.isprintable()` is only reached behind a non-empty
guard in this program). -/
def pyIsPrintable (l : List Char) : Bool := l.all pyPrintableChar

/-! ### src/Main.py:13 `has_cjk` -/

/-- One character of the three inclusive CJK ranges tested by
`has_cjk`. -/
def cjkChar (c : Char) : Bool :=
  ('一' ≤ c && c ≤ '鿿') ||
  ('぀' ≤ c && c ≤ 'ヿ') ||
  ('가' ≤ c && c ≤ '힯')

/-- src/Main.py:13-18: `has_cjk(text)`. -/
def has_cjk (text : List Char) : Bool := text.any cjkChar

/-! ### src/Main.py:21 `is_valid_heading` -/

/-- src/Main.py:30-40: the fixed `form_words` vocabulary. -/
def form_words : List (List Char) :=
  (["name", "age", "date", "rs", "s.no", "sno", "signature", "designation",
    "service", "pay", "si", "npa", "permanent", "temporary", "home", "town",
    "recorded", "book", "wife", "husband", "employed", "entitled", "ltc",
    "concession", "availed", "visiting", "block", "india", "place", "visited",
    "single", "rail", "fare", "bus", "from", "headquarters", "shortest",
    "route", "persons", "respect", "whom", "proposed", "relationship",
    "amount", "advance", "required", "declare", "particulars", "furnished",
    "true", "correct", "knowledge", "undertake", "produce", "tickets",
    "outward", "journey", "receipt", "refund", "entire", "lump", "sum"] :
    List String).map String.toList

/-- The regex `^[\d\.]+$` of src/Main.py:27: a non-empty string of
digits and dots. -/
def digitsDots (l : List Char) : Bool :=
  !l.isEmpty && l.all (fun c => c.isDigit || c = '.')

/-- src/Main.py:21-48: `is_valid_heading(text)`.  The float comparison
`form_count > len(words) * 0.8` is exact at the word counts this
program produces and is embedded as `5 * form_count > 4 * len`. -/
def is_valid_heading (text0 : List Char) : Bool :=
  let text := pyStrip text0
  if text.length < 3 then false
  else if digitsDots text || ((pyWords text).length = 1 && text.length < 4) then false
  else
    let words := pyWords (pyLower text)
    let fc := (words.filter (fun w => decide (w ∈ form_words))).length
    if 4 * words.length < 5 * fc then false
    else if text.getLast? = some ':' || 10 < (pyWords text).length then false
    else true

/-! ### src/Main.py:51 `extract_title` helpers -/

/-- The literal prefix `"Microsoft Word - "` of src/Main.py:58. -/
def msWordPat : List Char := "Microsoft Word - ".toList

/-- Python `str.replace('Microsoft Word - ', '')` (src/Main.py:59):
greedy left-to-right removal of every non-overlapping occurrence,
on fuel (the fuel `l.length` supplied by `stripMsWord` always
suffices, so the `0, l` fallback is unreachable). -/
def stripMsWordAux : ℕ → List Char → List Char
  | 0, l => l
  | _ + 1, [] => []
  | fuel + 1, c :: rest =>
    if msWordPat.isPrefixOf (c :: rest) then stripMsWordAux fuel (rest.drop 16)
    else c :: stripMsWordAux fuel rest

/-- `title.replace('Microsoft Word - ', '')` of src/Main.py:59. -/
def stripMsWord (l : List Char) : List Char := stripMsWordAux l.length l

/-- The literal `'.docx'` of src/Main.py:60. -/
def docxExt : List Char := ".docx".toList

/-- The literal `'.doc'` of src/Main.py:60. -/
def docExt : List Char := ".doc".toList

/-- src/Main.py:56-62: cleaning of a (stripped) metadata title.  The
source tests `endswith('.doc') or endswith('.docx')` and then picks
`[:-4]` for `.docx` else `[:-3]`; testing `.docx` first is the same
branch structure. -/
def cleanMetaTitle (title0 : List Char) : List Char :=
  let title1 := if msWordPat.isPrefixOf title0 then stripMsWord title0 else title0
  if docxExt.isSuffixOf title1 then title1.take (title1.length - 4)
  else if docExt.isSuffixOf title1 then title1.take (title1.length - 3)
  else title1

/-! ### The document data model (the PyMuPDF interface boundary) -/

/-- One text span as handed over by `page.get_text('dict')`: only the
fields the program reads (`text`, `size`, `flags`, `bbox[1]`,
`bbox[3]`). -/
structure Span where
  text : List Char
  size : ℚ
  flags : ℕ
  y0 : ℚ
  y1 : ℚ
deriving DecidableEq

/-- One block: `none` models a block without a `'lines'` key (an image
block), `some` carries its lines, each line a span list. -/
structure Block where
  lines : Option (List (List Span))
deriving DecidableEq

/-- One page: its `rect.height` and its blocks. -/
structure Page where
  height : ℚ
  blocks : List Block
deriving DecidableEq

/-- A successfully opened document: `doc.metadata.get('title')` (with
`None` modelled as the empty, falsy string) and the page list. -/
structure Doc where
  metaTitle : List Char
  pages : List Page
deriving DecidableEq

/-- One record of the `lines` list built in src/Main.py:131-138. -/
structure LineFeature where
  text : List Char
  size : ℚ
  bold : Bool
  y0 : ℚ
  y1 : ℚ
  page : ℕ
deriving DecidableEq

/-- One outline record of src/Main.py:157-161. -/
structure OutlineEntry where
  level : List Char
  text : List Char
  page : ℕ
deriving DecidableEq

/-- The final `{"title": ..., "outline": ...}` record of
src/Main.py:164. -/
structure DocumentOutline where
  title : List Char
  outline : List OutlineEntry
deriving DecidableEq

/-! ### src/Main.py:51 `extract_title` -/

/-- Concatenation of the span lists of a block's lines. -/
def lineSpansJoin : List (List Span) → List Span
  | [] => []
  | l :: ls => l ++ lineSpansJoin ls

/-- Spans of a block list in document order (blocks without a `'lines'`
key contribute nothing, src/Main.py:68-69). -/
def blockSpans : List Block → List Span
  | [] => []
  | b :: bs =>
    (match b.lines with
     | none => []
     | some ls => lineSpansJoin ls) ++ blockSpans bs

/-- Iteration order of `for block ... for line ... for span` on one
page (src/Main.py:67-74). -/
def pageSpans (p : Page) : List Span :=
  blockSpans p.blocks

/-- Python `max(..., key=lambda x: x[0])` over a running best value:
strict `>` keeps the first-encountered maximum, as Python does. -/
def pyMax2 : (ℚ × List Char) → List (ℚ × List Char) → (ℚ × List Char)
  | b, [] => b
  | b, y :: ys => pyMax2 (if b.1 < y.1 then y else b) ys

/-- Python `max(l, key=lambda x: x[0])` for a possibly empty `l`. -/
def pyMaxByFirst : List (ℚ × List Char) → Option (ℚ × List Char)
  | [] => none
  | x :: xs => some (pyMax2 x xs)

/-- src/Main.py:66-74: the bold `size >= 15` candidates on the first
page. -/
def titleCandidatesBold (spans : List Span) : List (ℚ × List Char) :=
  spans.filterMap (fun s =>
    let t := pyStrip s.text
    if t ≠ [] ∧ 15 ≤ s.size ∧ s.flags &&& 2 ≠ 0 then some (s.size, t) else none)

/-- src/Main.py:78-81: all non-empty first-page spans. -/
def allSpanTexts (spans : List Span) : List (ℚ × List Char) :=
  spans.filterMap (fun s =>
    let t := pyStrip s.text
    if t ≠ [] then some (s.size, t) else none)

/-- The literal fallback title of src/Main.py:84. -/
def untitled : List Char := "Untitled PDF".toList

/-- src/Main.py:63-84: the first-page fallback chain — largest bold
span of size at least 15, then largest non-empty span, then the
literal. -/
def firstPageTitle (p : Page) : List Char :=
  match pyMaxByFirst (titleCandidatesBold (pageSpans p)) with
  | some c => c.2
  | none =>
    match pyMaxByFirst (allSpanTexts (pageSpans p)) with
    | some c => c.2
    | none => untitled

/-- src/Main.py:51-84: `extract_title(doc)`.  When the metadata title is
falsy, `doc[0]` on a zero-page document raises, which is the error
case. -/
def extract_title (doc : Doc) : Except String (List Char) :=
  if doc.metaTitle ≠ [] ∧ pyStrip doc.metaTitle ≠ [] then
    .ok (cleanMetaTitle (pyStrip doc.metaTitle))
  else
    match doc.pages with
    | [] => .error "page 0 is not in document"
    | p :: _ => .ok (firstPageTitle p)

/-! ### src/Main.py:87 `get_heading_levels` -/

/-- First-occurrence deduplication: the key order of a Python `Counter`
built by counting a list. -/
def pyDistinctAux {α : Type} [DecidableEq α] : List α → List α → List α
  | _, [] => []
  | seen, x :: xs =>
    if x ∈ seen then pyDistinctAux seen xs else x :: pyDistinctAux (x :: seen) xs

/-- Distinct elements of a list, first occurrences first. -/
def pyDistinct {α : Type} [DecidableEq α] (l : List α) : List α := pyDistinctAux [] l

/-- Stable insertion for a descending-count sort (`Counter.most_common`
order). -/
def insByCount (cnt : ℚ → ℕ) (x : ℚ) : List ℚ → List ℚ
  | [] => [x]
  | y :: ys => if cnt x < cnt y then y :: insByCount cnt x ys else x :: y :: ys

/-- `[s for s, _ in Counter(l).most_common()]` (src/Main.py:89-90): all
distinct values, most frequent first, frequency ties in first-occurrence
order. -/
def mostCommonKeys (l : List ℚ) : List ℚ :=
  (pyDistinct l).foldr (insByCount (fun s => l.count s)) []

/-- Descending stable insertion (`sorted(..., reverse=True)`). -/
def insDesc (x : ℚ) : List ℚ → List ℚ
  | [] => [x]
  | y :: ys => if y < x then x :: y :: ys else y :: insDesc x ys

/-- Python `sorted(l, reverse=True)`. -/
def sortDescQ (l : List ℚ) : List ℚ := l.foldr insDesc []

/-- src/Main.py:87-92: `get_heading_levels(font_sizes)`.  The `_ =>`
fallback is unreachable: `++ [0, 0, 0]` always has three elements. -/
def get_heading_levels (font_sizes : List ℚ) : ℚ × ℚ × ℚ :=
  match sortDescQ (mostCommonKeys font_sizes) ++ [0, 0, 0] with
  | a :: b :: c :: _ => (a, b, c)
  | _ => (0, 0, 0)

/-! ### src/Main.py:95 `find_repeated_elements` -/

/-- The margin test of src/Main.py:101:
`y0 < page_height * 0.1 or y1 > page_height * 0.9`. -/
def inMarginZone (page_height : ℚ) (f : LineFeature) : Bool :=
  decide (f.y0 < page_height * (1 / 10)) || decide (page_height * (9 / 10) < f.y1)

/-- `counter[txt] += 1` on an association-list counter (a
`defaultdict(int)`). -/
def bumpCounter : List (List Char × ℕ) → List Char → List (List Char × ℕ)
  | [], t => [(t, 1)]
  | (k, v) :: rest, t =>
    if k = t then (k, v + 1) :: rest else (k, v) :: bumpCounter rest t

/-- The counting loop of src/Main.py:97-102. -/
def marginCounter (page_height : ℚ) : List LineFeature → List (List Char × ℕ) → List (List Char × ℕ)
  | [], m => m
  | f :: fs, m =>
    marginCounter page_height fs
      (if inMarginZone page_height f then bumpCounter m f.text else m)

/-- src/Main.py:95-103: `find_repeated_elements(lines, num_pages,
page_height)`; the set comprehension `{t for t, c in counter.items() if
c > num_pages // 2}` as the list of qualifying keys. -/
def find_repeated_elements (lines : List LineFeature) (num_pages : ℕ) (page_height : ℚ) :
    List (List Char) :=
  (marginCounter page_height lines []).filterMap
    (fun kc => if num_pages / 2 < kc.2 then some kc.1 else none)

/-! ### src/Main.py:106 `extract_outline` -/

/-- `MAX_PAGES` of src/Main.py:10. -/
def MAX_PAGES : ℕ := 50

/-- `''.join(span text)` over a line (src/Main.py:123). -/
def joinSpanTexts (spans : List Span) : List Char :=
  spans.foldr (fun s acc => s.text ++ acc) []

/-- Python `max` over a non-empty float list (the `[]` default is
unreachable behind the non-empty-text guard). -/
def listMaxQ : List ℚ → ℚ
  | [] => 0
  | x :: xs => xs.foldl max x

/-- Python `min` over a non-empty float list. -/
def listMinQ : List ℚ → ℚ
  | [] => 0
  | x :: xs => xs.foldl min x

/-- src/Main.py:122-138: turn one raw line into a `LineFeature`, or
drop it (empty / unprintable / more than 20 words). -/
def collectLine (pageNum : ℕ) (spans : List Span) : Option LineFeature :=
  let txt := pyStrip (joinSpanTexts spans)
  if txt = [] ∨ pyIsPrintable txt = false ∨ 20 < (pyWords txt).length then none
  else some {
    text := txt
    size := listMaxQ (spans.map Span.size)
    bold := spans.any (fun s => decide (s.flags &&& 2 ≠ 0))
    y0 := listMinQ (spans.map Span.y0)
    y1 := listMaxQ (spans.map Span.y1)
    page := pageNum }

/-- The per-block part of the collection loop (blocks without a
`'lines'` key contribute nothing). -/
def collectBlocks (pageNum : ℕ) : List Block → List LineFeature
  | [] => []
  | b :: bs =>
    (match b.lines with
     | none => []
     | some ls => ls.filterMap (collectLine pageNum)) ++ collectBlocks pageNum bs

/-- The per-page part of the collection loop. -/
def collectPage (pageNum : ℕ) (p : Page) : List LineFeature :=
  collectBlocks pageNum p.blocks

/-- Pages processed in order with 1-based page numbers. -/
def collectPages : ℕ → List Page → List LineFeature
  | _, [] => []
  | pageNum, p :: ps => collectPage pageNum p ++ collectPages (pageNum + 1) ps

/-- src/Main.py:116-138: the collection loop over
`range(min(len(doc), MAX_PAGES))`. -/
def collectDoc (pages : List Page) : List LineFeature :=
  collectPages 1 (pages.take MAX_PAGES)

/-- src/Main.py:156-161: the H1/H2/H3 level cascade for one feature. -/
def classify (h1_size h2_size h3_size : ℚ) (f : LineFeature) : Option OutlineEntry :=
  if f.size = h1_size ∧ (f.bold = true ∨ has_cjk f.text = false) then
    some ⟨"H1".toList, f.text, f.page⟩
  else if f.size = h2_size then some ⟨"H2".toList, f.text, f.page⟩
  else if f.size = h3_size then some ⟨"H3".toList, f.text, f.page⟩
  else none

/-- src/Main.py:147-161: one iteration of the heading loop — the
repetition and validity guards, then the level cascade. -/
def headingStep (repeated : List (List Char)) (h1_size h2_size h3_size : ℚ)
    (f : LineFeature) : Option OutlineEntry :=
  if f.text ∈ repeated ∨ is_valid_heading f.text = false then none
  else classify h1_size h2_size h3_size f

/-- `doc[0].rect.height if num_pages > 0 else 0` (src/Main.py:113);
`num_pages = 0` is exactly `pages = []`. -/
def pageHeightOf : List Page → ℚ
  | [] => 0
  | p :: _ => p.height

/-- src/Main.py:106-164: `extract_outline`.  The argument carries the
outcome of `fitz.open`; an exception anywhere in the body propagates as
`Except.error`. -/
def extract_outline : Except String Doc → Except String DocumentOutline
  | .error e => .error e
  | .ok doc =>
    let lines := collectDoc doc.pages
    let font_sizes := lines.map LineFeature.size
    let num_pages := min doc.pages.length MAX_PAGES
    let page_height := pageHeightOf doc.pages
    let repeated := find_repeated_elements lines num_pages page_height
    let t := get_heading_levels font_sizes
    let outline := lines.filterMap (headingStep repeated t.1 t.2.1 t.2.2)
    (extract_title doc).map (fun title => ⟨title, outline⟩)

/-! ### Claim-side (specification-worded) definitions -/

/-- The heading thresholds as the words of claim C1 describe them: the
three most frequent distinct size values, ordered by descending size
among those three, padded with 0. -/
def claimHeadingLevels (font_sizes : List ℚ) : ℚ × ℚ × ℚ :=
  match sortDescQ ((mostCommonKeys font_sizes).take 3) ++ [0, 0, 0] with
  | a :: b :: c :: _ => (a, b, c)
  | _ => (0, 0, 0)

/-- The number of margin-zone occurrences of a text, one per line
record. -/
def marginCount (lines : List LineFeature) (page_height : ℚ) (t : List Char) : ℕ :=
  (lines.filter (fun f => inMarginZone page_height f && decide (f.text = t))).length

/-- The distinct pages on which a text has a margin-zone occurrence, as
the words of claim C3 describe membership. -/
def marginPageList (lines : List LineFeature) (page_height : ℚ) (t : List Char) : List ℕ :=
  pyDistinct
    ((lines.filter (fun f => inMarginZone page_height f && decide (f.text = t))).map
      LineFeature.page)

/-! ### Helper lemmas: `isPrefixOf` / `isSuffixOf` -/

theorem isPre_exists {p l : List Char} (h : p.isPrefixOf l = true) : ∃ x, l = p ++ x := by
  induction p generalizing l with
  | nil => exact ⟨l, rfl⟩
  | cons a as ih =>
    cases l with
    | nil => simp [List.isPrefixOf] at h
    | cons b bs =>
      simp only [List.isPrefixOf, Bool.and_eq_true, beq_iff_eq] at h
      obtain ⟨x, hx⟩ := ih h.2
      exact ⟨x, by simp [h.1, hx]⟩

theorem isPre_self_append (l t : List Char) : l.isPrefixOf (l ++ t) = true := by
  induction l with
  | nil => simp
  | cons a as ih => simp [List.isPrefixOf, ih]

theorem isSuf_exists {p l : List Char} (h : p.isSuffixOf l = true) : ∃ x, l = x ++ p := by
  unfold List.isSuffixOf at h
  obtain ⟨x, hx⟩ := isPre_exists h
  refine ⟨x.reverse, ?_⟩
  have := congrArg List.reverse hx
  simpa using this

theorem isSuf_length {p l : List Char} (h : p.isSuffixOf l = true) : p.length ≤ l.length := by
  obtain ⟨x, hx⟩ := isSuf_exists h
  subst hx
  simp

/-! ### Helper lemmas: `stripMsWord` (Python `str.replace`) -/

theorem msWordPat_eq : msWordPat = 'M' :: "icrosoft Word - ".toList := by decide

theorem noMsWordMatch {c : Char} (rest : List Char) (h : c ≠ 'M') :
    msWordPat.isPrefixOf (c :: rest) = false := by
  rw [msWordPat_eq]
  simp only [List.isPrefixOf, Bool.and_eq_false_iff, beq_eq_false_iff_ne]
  exact Or.inl (fun hc => h hc.symm)

/-- One-step unfolding of `stripMsWordAux` at positive fuel and a
non-empty list. -/
theorem stripAux_succ (fuel : ℕ) (c : Char) (rest : List Char) :
    stripMsWordAux (fuel + 1) (c :: rest) =
      if msWordPat.isPrefixOf (c :: rest) then stripMsWordAux fuel (rest.drop 16)
      else c :: stripMsWordAux fuel rest := rfl

theorem stripAux_nil (fuel : ℕ) : stripMsWordAux fuel [] = [] := by
  cases fuel <;> rfl

/-- Fuel irrelevance of `stripMsWordAux`: any fuel at least the length
computes the same value. -/
theorem stripAux_fuel : ∀ (n : ℕ) (l : List Char) (f₁ f₂ : ℕ),
    l.length ≤ n → l.length ≤ f₁ → l.length ≤ f₂ →
    stripMsWordAux f₁ l = stripMsWordAux f₂ l := by
  intro n
  induction n with
  | zero =>
    intro l f₁ f₂ hn _ _
    have : l = [] := List.eq_nil_of_length_eq_zero (Nat.le_zero.mp hn)
    subst this
    rw [stripAux_nil, stripAux_nil]
  | succ m ih =>
    intro l f₁ f₂ hn h₁ h₂
    cases l with
    | nil => rw [stripAux_nil, stripAux_nil]
    | cons c rest =>
      simp only [List.length_cons] at hn h₁ h₂
      obtain ⟨g₁, rfl⟩ : ∃ g, f₁ = g + 1 := ⟨f₁ - 1, by omega⟩
      obtain ⟨g₂, rfl⟩ : ∃ g, f₂ = g + 1 := ⟨f₂ - 1, by omega⟩
      rw [stripAux_succ, stripAux_succ]
      have hd : (rest.drop 16).length = rest.length - 16 := by simp
      by_cases hm : msWordPat.isPrefixOf (c :: rest) = true
      · rw [hm]
        simp only [if_true]
        exact ih _ _ _ (by omega) (by omega) (by omega)
      · rw [Bool.not_eq_true] at hm
        rw [hm]
        simp only [Bool.false_eq_true, if_false]
        rw [ih rest g₁ g₂ (by omega) (by omega) (by omega)]

theorem stripMsWord_nil : stripMsWord [] = [] := rfl

/-- Unfolding at a non-matching head character. -/
theorem stripMsWord_cons_noMatch {c : Char} {rest : List Char}
    (h : msWordPat.isPrefixOf (c :: rest) = false) :
    stripMsWord (c :: rest) = c :: stripMsWord rest := by
  unfold stripMsWord
  rw [List.length_cons, stripAux_succ, h]
  simp

/-- Unfolding at a pattern occurrence: the occurrence is deleted and
scanning resumes after it. -/
theorem stripMsWord_pat_append (x : List Char) :
    stripMsWord (msWordPat ++ x) = stripMsWord x := by
  have hlen : (msWordPat ++ x).length = (x.length + 16) + 1 := by
    have h17 : msWordPat.length = 17 := by decide
    simp [List.length_append, h17]
    omega
  have hcons : msWordPat ++ x = 'M' :: ("icrosoft Word - ".toList ++ x) := by
    rw [msWordPat_eq]
    rfl
  have hpre : msWordPat.isPrefixOf ('M' :: ("icrosoft Word - ".toList ++ x)) = true := by
    rw [← hcons]
    exact isPre_self_append _ _
  unfold stripMsWord
  rw [hlen, hcons, stripAux_succ, hpre, if_pos rfl]
  have hdrop : (("icrosoft Word - ".toList ++ x).drop 16) = x := List.drop_left' (by decide)
  rw [hdrop]
  exact stripAux_fuel x.length x (x.length + 16) x.length le_rfl (by omega) le_rfl

/-- A segment free of the pattern's first character passes through
unchanged. -/
theorem stripMsWord_noM_append {a : List Char} (y : List Char) (ha : 'M' ∉ a) :
    stripMsWord (a ++ y) = a ++ stripMsWord y := by
  induction a with
  | nil => rfl
  | cons c cs ih =>
    have hc : c ≠ 'M' := fun h => ha (h ▸ List.mem_cons_self c cs)
    have hcs : 'M' ∉ cs := fun h => ha (List.mem_cons_of_mem c h)
    rw [List.cons_append, stripMsWord_cons_noMatch (noMsWordMatch _ hc), ih hcs,
      List.cons_append]

theorem stripMsWord_noM {b : List Char} (hb : 'M' ∉ b) : stripMsWord b = b := by
  have := stripMsWord_noM_append [] hb
  simpa [stripMsWord_nil] using this

/-! ### C1 -/

/-- C1 (code_bug): the spec says the heading thresholds are the three
most frequent distinct sizes sorted by descending size, but
`get_heading_levels` sorts the whole distinct-size list by size and
takes the three largest, ignoring frequency.  On the multiset below the
three most frequent sizes are 10, 12, 14 (frequencies 4, 3, 2), so the
claim demands (14, 12, 10); the code yields (16, 14, 12), with `h1Size`
the *least* frequent size.  This contradicts the function's own
docstring, "Determine H1, H2, H3 font sizes based on frequency". -/
theorem c1_heading_levels_ignore_frequency :
    get_heading_levels [10, 10, 10, 10, 12, 12, 12, 14, 14, 16] = (16, 14, 12) ∧
    claimHeadingLevels [10, 10, 10, 10, 12, 12, 12, 14, 14, 16] = (14, 12, 10) ∧
    List.count (16 : ℚ) [10, 10, 10, 10, 12, 12, 12, 14, 14, 16] <
      List.count (10 : ℚ) [10, 10, 10, 10, 12, 12, 12, 14, 14, 16] := by
  refine ⟨by decide, by decide, by decide⟩

/-! ### C2 -/

/-- C2 (code_bug): for metadata title "Microsoft Word - Budget.docx"
the spec demands "Budget", but `title[:-4]` removes only four of the
five characters of ".docx", so the code returns "Budget." with a
trailing dot. -/
theorem c2_trailing_dot_kept :
    extract_title ⟨"Microsoft Word - Budget.docx".toList, []⟩ = .ok "Budget.".toList ∧
    "Budget.".toList ≠ "Budget".toList := by
  refine ⟨by decide, by decide⟩

/-! ### C10 -/

/-- C10 counterexample: the claim quantifies over every metadata title,
but a title that merely *contains* "Microsoft Word - " without starting
with it is returned unchanged — the occurrence is not removed. -/
theorem c10_counterexample :
    extract_title ⟨"A Microsoft Word - B".toList, []⟩ = .ok "A Microsoft Word - B".toList ∧
    "A Microsoft Word - B".toList = "A ".toList ++ msWordPat ++ "B".toList := by
  refine ⟨by decide, by decide⟩

/-- C10 (corrected): when the trimmed title starts with
"Microsoft Word - ", the `str.replace` call removes every
(left-to-right, non-overlapping) occurrence of the substring, not only
the leading one; shown here for titles of shape `pat ++ a ++ pat ++ b`
whose segments do not contain the pattern's first character. -/
theorem c10_removes_all_occurrences (a b : List Char) (ha : 'M' ∉ a) (hb : 'M' ∉ b) :
    msWordPat.isPrefixOf (msWordPat ++ a ++ msWordPat ++ b) = true ∧
    stripMsWord (msWordPat ++ a ++ msWordPat ++ b) = a ++ b := by
  constructor
  · rw [List.append_assoc, List.append_assoc]
    exact isPre_self_append _ _
  · rw [List.append_assoc, List.append_assoc, stripMsWord_pat_append,
      stripMsWord_noM_append (msWordPat ++ b) ha, stripMsWord_pat_append,
      stripMsWord_noM hb]

/-! ### Helper lemmas: the margin counter -/

/-- First-entry count in an association-list counter (its lookup,
since `bumpCounter`-built counters have distinct keys). -/
def cntOf : List (List Char × ℕ) → List Char → ℕ
  | [], _ => 0
  | (k, v) :: rest, t => if k = t then v else cntOf rest t

theorem cntOf_bump_self (m : List (List Char × ℕ)) (t : List Char) :
    cntOf (bumpCounter m t) t = cntOf m t + 1 := by
  induction m with
  | nil => simp [bumpCounter, cntOf]
  | cons kv rest ih =>
    obtain ⟨k, v⟩ := kv
    by_cases hk : k = t
    · subst hk
      simp [bumpCounter, cntOf]
    · simp [bumpCounter, cntOf, hk, ih]

theorem cntOf_bump_other (m : List (List Char × ℕ)) {s t : List Char} (h : s ≠ t) :
    cntOf (bumpCounter m t) s = cntOf m s := by
  induction m with
  | nil => simp [bumpCounter, cntOf, h, Ne.symm h]
  | cons kv rest ih =>
    obtain ⟨k, v⟩ := kv
    by_cases hk : k = t
    · subst hk
      simp [bumpCounter, cntOf, Ne.symm h]
    · simp [bumpCounter, cntOf, hk, ih]

theorem marginCount_cons (f : LineFeature) (fs : List LineFeature) (h : ℚ) (t : List Char) :
    marginCount (f :: fs) h t =
      (if inMarginZone h f && decide (f.text = t) then 1 else 0) + marginCount fs h t := by
  unfold marginCount
  rw [List.filter_cons]
  by_cases hc : (inMarginZone h f && decide (f.text = t)) = true
  · simp [hc]
    omega
  · rw [Bool.not_eq_true] at hc
    simp [hc]

/-- The counting loop adds exactly the margin-occurrence count of each
text to the accumulator's count. -/
theorem cntOf_marginCounter (h : ℚ) :
    ∀ (fs : List LineFeature) (m : List (List Char × ℕ)) (t : List Char),
      cntOf (marginCounter h fs m) t = cntOf m t + marginCount fs h t := by
  intro fs
  induction fs with
  | nil => intro m t; simp [marginCounter, marginCount, List.filter]
  | cons f rest ih =>
    intro m t
    rw [marginCounter, ih, marginCount_cons]
    by_cases hz : inMarginZone h f = true
    · by_cases ht : f.text = t
      · subst ht
        simp [hz, cntOf_bump_self]
        omega
      · simp [hz, ht, cntOf_bump_other m (fun he => ht he.symm)]
    · rw [Bool.not_eq_true] at hz
      simp [hz]

theorem mem_of_cntOf_pos {m : List (List Char × ℕ)} {t : List Char}
    (h : 0 < cntOf m t) : (t, cntOf m t) ∈ m := by
  induction m with
  | nil => simp [cntOf] at h
  | cons kv rest ih =>
    obtain ⟨k, v⟩ := kv
    by_cases hk : k = t
    · subst hk
      simp only [cntOf, if_pos rfl] at h ⊢
      exact List.mem_cons_self _ _
    · simp only [cntOf, if_neg hk] at h ⊢
      exact List.mem_cons_of_mem _ (ih h)

theorem mem_keys_bump {m : List (List Char × ℕ)} {s t : List Char}
    (h : s ∈ (bumpCounter m t).map Prod.fst) : s ∈ m.map Prod.fst ∨ s = t := by
  induction m with
  | nil => simpa [bumpCounter] using h
  | cons kv rest ih =>
    obtain ⟨k, v⟩ := kv
    by_cases hk : k = t
    · subst hk
      simp [bumpCounter] at h ⊢
      tauto
    · simp only [bumpCounter, if_neg hk, List.map_cons, List.mem_cons] at h ⊢
      rcases h with h | h
      · exact Or.inl (Or.inl h)
      · rcases ih h with h' | h'
        · exact Or.inl (Or.inr h')
        · exact Or.inr h'

theorem keys_nodup_bump {m : List (List Char × ℕ)} (t : List Char)
    (h : (m.map Prod.fst).Nodup) : ((bumpCounter m t).map Prod.fst).Nodup := by
  induction m with
  | nil => simp [bumpCounter]
  | cons kv rest ih =>
    obtain ⟨k, v⟩ := kv
    simp only [List.map_cons, List.nodup_cons] at h
    by_cases hk : k = t
    · subst hk
      simpa [bumpCounter] using h
    · simp only [bumpCounter, if_neg hk, List.map_cons, List.nodup_cons]
      refine ⟨fun hmem => ?_, ih h.2⟩
      rcases mem_keys_bump hmem with h' | h'
      · exact h.1 h'
      · exact hk h'

theorem keys_nodup_marginCounter (h : ℚ) :
    ∀ (fs : List LineFeature) (m : List (List Char × ℕ)),
      (m.map Prod.fst).Nodup → ((marginCounter h fs m).map Prod.fst).Nodup := by
  intro fs
  induction fs with
  | nil => intro m hm; exact hm
  | cons f rest ih =>
    intro m hm
    rw [marginCounter]
    by_cases hz : inMarginZone h f = true
    · simp only [hz, if_pos rfl]
      exact ih _ (keys_nodup_bump _ hm)
    · rw [Bool.not_eq_true] at hz
      simp only [hz, Bool.false_eq_true, if_false]
      exact ih _ hm

theorem cntOf_of_mem {m : List (List Char × ℕ)} {k : List Char} {c : ℕ}
    (hmem : (k, c) ∈ m) (hnd : (m.map Prod.fst).Nodup) : cntOf m k = c := by
  induction m with
  | nil => simp at hmem
  | cons kv rest ih =>
    obtain ⟨k', v⟩ := kv
    simp only [List.map_cons, List.nodup_cons] at hnd
    rcases List.mem_cons.mp hmem with h | h
    · injection h with h1 h2
      subst h1; subst h2
      simp [cntOf]
    · have hk : k' ≠ k := by
        intro he
        subst he
        exact hnd.1 (List.mem_map.mpr ⟨(k', c), h, rfl⟩)
      simp only [cntOf, if_neg hk]
      exact ih h hnd.2

/-- Membership in `find_repeated_elements` is exactly the
occurrence-count threshold test. -/
theorem mem_find_repeated (lines : List LineFeature) (num_pages : ℕ) (page_height : ℚ)
    (t : List Char) :
    t ∈ find_repeated_elements lines num_pages page_height ↔
      num_pages / 2 < marginCount lines page_height t := by
  have hcnt : cntOf (marginCounter page_height lines []) t = marginCount lines page_height t := by
    rw [cntOf_marginCounter]
    simp [cntOf]
  have hnd : ((marginCounter page_height lines []).map Prod.fst).Nodup :=
    keys_nodup_marginCounter _ _ _ (by simp)
  constructor
  · intro hmem
    obtain ⟨⟨k, c⟩, hkc, hsome⟩ := List.mem_filterMap.mp hmem
    by_cases hth : num_pages / 2 < c
    · simp only [if_pos hth, Option.some.injEq] at hsome
      subst hsome
      rw [← hcnt, cntOf_of_mem hkc hnd]
      exact hth
    · simp [if_neg hth] at hsome
  · intro hth
    have hpos : 0 < cntOf (marginCounter page_height lines []) t := by
      rw [hcnt]
      omega
    refine List.mem_filterMap.mpr ⟨(t, cntOf (marginCounter page_height lines []) t),
      mem_of_cntOf_pos hpos, ?_⟩
    simp [hcnt, hth]

/-! ### C3 -/

/-- C3 counterexample: three margin-zone occurrences of "foo" on the
*same* page of a 4-page document (threshold `4 // 2 = 2`) put "foo"
into the repeated set although it appears on only one distinct page. -/
theorem c3_counterexample :
    "foo".toList ∈ find_repeated_elements
        [⟨"foo".toList, 10, false, 0, 5, 1⟩, ⟨"foo".toList, 10, false, 0, 5, 1⟩,
          ⟨"foo".toList, 10, false, 0, 5, 1⟩] 4 100 ∧
      (marginPageList
        [⟨"foo".toList, 10, false, 0, 5, 1⟩, ⟨"foo".toList, 10, false, 0, 5, 1⟩,
          ⟨"foo".toList, 10, false, 0, 5, 1⟩] 100 "foo".toList).length ≤ 4 / 2 := by
  constructor
  · norm_num +decide [find_repeated_elements, marginCounter, inMarginZone, bumpCounter,
      List.filterMap]
  · norm_num +decide [marginPageList, inMarginZone, List.filter, pyDistinct, pyDistinctAux]

/-- C3 (corrected): the repeated-element set contains exactly the texts
whose *number of margin-zone line occurrences* (each line counted,
several per page possible) exceeds `num_pages // 2` — not the texts
appearing on more than `num_pages // 2` distinct pages. -/
theorem c3_repeated_by_occurrences (lines : List LineFeature) (num_pages : ℕ)
    (page_height : ℚ) (t : List Char) :
    t ∈ find_repeated_elements lines num_pages page_height ↔
      num_pages / 2 < marginCount lines page_height t :=
  mem_find_repeated lines num_pages page_height t

/-! ### C5 -/

/-- C5 counterexample: with `num_pages = 1` the threshold is
`1 // 2 = 0`, so a single margin-zone occurrence already lands in the
repeated set — the set is not empty. -/
theorem c5_counterexample :
    find_repeated_elements [⟨"x".toList, 10, false, 0, 5, 1⟩] 1 100 = ["x".toList] := by
  norm_num +decide [find_repeated_elements, marginCounter, inMarginZone, bumpCounter,
    List.filterMap]

/-- C5 (corrected): with `num_pages ≤ 1` the threshold is 0 and the
repeated set consists of every text with at least one margin-zone
occurrence; texts in the margin *are* excluded by repetition, and the
set is empty only when no line lies in a margin zone. -/
theorem c5_single_page_threshold (lines : List LineFeature) (num_pages : ℕ)
    (page_height : ℚ) (t : List Char) (h : num_pages ≤ 1) :
    t ∈ find_repeated_elements lines num_pages page_height ↔
      0 < marginCount lines page_height t := by
  have h0 : num_pages / 2 = 0 := by omega
  rw [mem_find_repeated, h0]

/-- Closed instance of `c5_single_page_threshold`. -/
theorem c5_witness :
    (1 ≤ 1) ∧
      ("x".toList ∈ find_repeated_elements [⟨"x".toList, 10, false, 0, 5, 1⟩] 1 100 ↔
        0 < marginCount [⟨"x".toList, 10, false, 0, 5, 1⟩] 100 "x".toList) :=
  ⟨le_refl 1, c5_single_page_threshold [⟨"x".toList, 10, false, 0, 5, 1⟩] 1 100 "x".toList
    (le_refl 1)⟩

/-! ### C4 -/

/-- C4 counterexample: a zero-page document whose metadata carries a
non-empty title is processed successfully — a `DocumentOutline` (with
an empty outline) *is* returned, the call does not fail. -/
theorem c4_counterexample :
    extract_outline (.ok ⟨"T".toList, []⟩) = .ok ⟨"T".toList, []⟩ := by decide

/-- C4 (corrected): a zero-page document fails only when its metadata
title is empty after trimming (the title extractor's page-one access
raises); with a non-empty metadata title a `DocumentOutline` with an
empty outline is returned.  An unparsable stream (`fitz.open` raising)
always fails with the underlying cause. -/
theorem c4_zero_pages (d : Doc) (h : d.pages = []) :
    (extract_outline (.ok d) =
      if pyStrip d.metaTitle = [] then .error "page 0 is not in document"
      else .ok ⟨cleanMetaTitle (pyStrip d.metaTitle), []⟩) ∧
    (∀ e : String, extract_outline (.error e) = .error e) := by
  refine ⟨?_, fun e => rfl⟩
  by_cases hm : pyStrip d.metaTitle = []
  · have hm2 : ¬(d.metaTitle ≠ [] ∧ pyStrip d.metaTitle ≠ []) := fun hc => hc.2 hm
    simp [extract_outline, extract_title, h, hm, hm2, collectDoc, collectPages,
      find_repeated_elements, marginCounter, MAX_PAGES, Except.map]
  · have hne : d.metaTitle ≠ [] := by
      intro h0
      rw [h0] at hm
      exact hm rfl
    simp [extract_outline, extract_title, h, hm, hne, collectDoc, collectPages,
      find_repeated_elements, marginCounter, MAX_PAGES, Except.map]

/-- Closed instance of `c4_zero_pages`. -/
theorem c4_witness :
    ((⟨[], []⟩ : Doc).pages = []) ∧
      ((extract_outline (.ok (⟨[], []⟩ : Doc)) =
        if pyStrip (⟨[], []⟩ : Doc).metaTitle = [] then .error "page 0 is not in document"
        else .ok ⟨cleanMetaTitle (pyStrip (⟨[], []⟩ : Doc).metaTitle), []⟩) ∧
      (∀ e : String, extract_outline (.error e) = .error e)) :=
  ⟨rfl, c4_zero_pages ⟨[], []⟩ rfl⟩

/-! ### C9 -/

/-- C9 (confirmed): after the repetition and validity guards pass, the
level cascade is evaluated H1, then H2, then H3, first match only, with
the exact branch conditions of src/Main.py:156-161; at most one entry
(an `Option`) is produced per line. -/
theorem c9_level_cascade (repeated : List (List Char)) (h1_size h2_size h3_size : ℚ)
    (f : LineFeature) (hrep : f.text ∉ repeated) (hval : is_valid_heading f.text = true) :
    headingStep repeated h1_size h2_size h3_size f = classify h1_size h2_size h3_size f ∧
    (classify h1_size h2_size h3_size f = some ⟨"H1".toList, f.text, f.page⟩ ↔
      (f.size = h1_size ∧ (f.bold = true ∨ has_cjk f.text = false))) ∧
    (classify h1_size h2_size h3_size f = some ⟨"H2".toList, f.text, f.page⟩ ↔
      (¬(f.size = h1_size ∧ (f.bold = true ∨ has_cjk f.text = false)) ∧ f.size = h2_size)) ∧
    (classify h1_size h2_size h3_size f = some ⟨"H3".toList, f.text, f.page⟩ ↔
      (¬(f.size = h1_size ∧ (f.bold = true ∨ has_cjk f.text = false)) ∧ ¬f.size = h2_size ∧
        f.size = h3_size)) ∧
    (classify h1_size h2_size h3_size f = none ↔
      (¬(f.size = h1_size ∧ (f.bold = true ∨ has_cjk f.text = false)) ∧ ¬f.size = h2_size ∧
        ¬f.size = h3_size)) := by
  refine ⟨?_, ?_, ?_, ?_, ?_⟩
  · unfold headingStep
    rw [if_neg]
    intro hor
    rcases hor with h | h
    · exact hrep h
    · rw [hval] at h
      cases h
  all_goals
    unfold classify
    split_ifs with hA hB hC <;> simp_all +decide [OutlineEntry.mk.injEq]

/-- Closed instance of `c9_level_cascade`. -/
theorem c9_witness :
    (("Hello World".toList ∉ ([] : List (List Char))) ∧
      is_valid_heading "Hello World".toList = true) ∧
    headingStep [] 12 11 10 ⟨"Hello World".toList, 12, false, 0, 0, 1⟩ =
      classify 12 11 10 ⟨"Hello World".toList, 12, false, 0, 0, 1⟩ :=
  ⟨⟨by decide, by decide⟩,
    (c9_level_cascade [] 12 11 10 ⟨"Hello World".toList, 12, false, 0, 0, 1⟩ (by decide)
      (by decide)).1⟩

/-! ### Helper lemmas: the collection loop and the assembly loop -/

theorem collectLine_page {pn : ℕ} {spans : List Span} {f : LineFeature}
    (h : collectLine pn spans = some f) : f.page = pn := by
  simp only [collectLine] at h
  split_ifs at h
  exact congrArg LineFeature.page (Option.some.inj h).symm

theorem mem_collectBlocks {pn : ℕ} {bs : List Block} {f : LineFeature}
    (h : f ∈ collectBlocks pn bs) : f.page = pn := by
  induction bs with
  | nil => simp [collectBlocks] at h
  | cons b rest ih =>
    rw [collectBlocks] at h
    rcases List.mem_append.mp h with h | h
    · cases hb : b.lines with
      | none =>
        rw [hb] at h
        simp at h
      | some ls =>
        rw [hb] at h
        obtain ⟨spans, -, hs⟩ := List.mem_filterMap.mp h
        exact collectLine_page hs
    · exact ih h

theorem mem_collectPages {f : LineFeature} :
    ∀ (ps : List Page) (pn : ℕ), f ∈ collectPages pn ps →
      pn ≤ f.page ∧ f.page < pn + ps.length := by
  intro ps
  induction ps with
  | nil =>
    intro pn h
    simp [collectPages] at h
  | cons p rest ih =>
    intro pn h
    rw [collectPages] at h
    rcases List.mem_append.mp h with h | h
    · rw [collectPage] at h
      have hp := mem_collectBlocks h
      simp [List.length_cons]
      omega
    · obtain ⟨h1, h2⟩ := ih (pn + 1) h
      simp [List.length_cons]
      omega

theorem mem_collectDoc {pages : List Page} {f : LineFeature} (h : f ∈ collectDoc pages) :
    1 ≤ f.page ∧ f.page ≤ min pages.length MAX_PAGES := by
  unfold collectDoc at h
  obtain ⟨h1, h2⟩ := mem_collectPages _ _ h
  have hlen : (pages.take MAX_PAGES).length = min MAX_PAGES pages.length := by
    simp
  omega

theorem classify_shape {a b c : ℚ} {f : LineFeature} {e : OutlineEntry}
    (h : classify a b c f = some e) :
    e.text = f.text ∧ e.page = f.page ∧
      (e.level = "H1".toList ∨ e.level = "H2".toList ∨ e.level = "H3".toList) := by
  unfold classify at h
  split_ifs at h
  · rw [← Option.some.inj h]
    simp
  · rw [← Option.some.inj h]
    simp
  · rw [← Option.some.inj h]
    simp

theorem headingStep_some {rep : List (List Char)} {a b c : ℚ} {f : LineFeature}
    {e : OutlineEntry} (h : headingStep rep a b c f = some e) :
    classify a b c f = some e ∧ f.text ∉ rep ∧ is_valid_heading f.text = true := by
  unfold headingStep at h
  split_ifs at h with hg
  push_neg at hg
  rcases Bool.eq_false_or_eq_true (is_valid_heading f.text) with hb | hb
  · exact ⟨h, hg.1, hb⟩
  · exact absurd hb hg.2

/-- Destructuring a successful whole-document run into the title call
and the assembly loop output. -/
theorem extract_outline_ok {d : Doc} {r : DocumentOutline}
    (h : extract_outline (.ok d) = .ok r) :
    extract_title d = .ok r.title ∧
    r.outline = (collectDoc d.pages).filterMap
      (headingStep
        (find_repeated_elements (collectDoc d.pages) (min d.pages.length MAX_PAGES)
          (pageHeightOf d.pages))
        (get_heading_levels ((collectDoc d.pages).map LineFeature.size)).1
        (get_heading_levels ((collectDoc d.pages).map LineFeature.size)).2.1
        (get_heading_levels ((collectDoc d.pages).map LineFeature.size)).2.2) := by
  have hrfl : extract_outline (.ok d) =
      (extract_title d).map (fun title =>
        ⟨title, (collectDoc d.pages).filterMap
          (headingStep
            (find_repeated_elements (collectDoc d.pages) (min d.pages.length MAX_PAGES)
              (pageHeightOf d.pages))
            (get_heading_levels ((collectDoc d.pages).map LineFeature.size)).1
            (get_heading_levels ((collectDoc d.pages).map LineFeature.size)).2.1
            (get_heading_levels ((collectDoc d.pages).map LineFeature.size)).2.2)⟩) := rfl
  rw [hrfl] at h
  cases ht : extract_title d with
  | error e =>
    rw [ht] at h
    exact Except.noConfusion h
  | ok title =>
    rw [ht] at h
    simp only [Except.map] at h
    have h2 := Except.ok.inj h
    rw [← h2]
    exact ⟨rfl, rfl⟩

/-! ### C6 -/

/-- C6 (confirmed): every produced outline entry's text passed the
validity filter and is not a member of the repeated-element set. -/
theorem c6_outline_filters (d : Doc) (r : DocumentOutline)
    (h : extract_outline (.ok d) = .ok r) (e : OutlineEntry) (he : e ∈ r.outline) :
    is_valid_heading e.text = true ∧
      e.text ∉ find_repeated_elements (collectDoc d.pages) (min d.pages.length MAX_PAGES)
        (pageHeightOf d.pages) := by
  obtain ⟨-, hout⟩ := extract_outline_ok h
  rw [hout] at he
  obtain ⟨f, -, hstep⟩ := List.mem_filterMap.mp he
  obtain ⟨hcl, hrep, hval⟩ := headingStep_some hstep
  obtain ⟨htext, -, -⟩ := classify_shape hcl
  rw [htext]
  exact ⟨hval, hrep⟩

/-! ### C7 -/

/-- C7 (confirmed): every produced outline entry has level H1, H2 or
H3, and a 1-based page number within `[1, min(totalPages, MAX_PAGES)]`;
pages beyond the `MAX_PAGES = 50` cap never contribute entries. -/
theorem c7_entry_invariants (d : Doc) (r : DocumentOutline)
    (h : extract_outline (.ok d) = .ok r) (e : OutlineEntry) (he : e ∈ r.outline) :
    (e.level = "H1".toList ∨ e.level = "H2".toList ∨ e.level = "H3".toList) ∧
      1 ≤ e.page ∧ e.page ≤ min d.pages.length MAX_PAGES := by
  obtain ⟨-, hout⟩ := extract_outline_ok h
  rw [hout] at he
  obtain ⟨f, hf, hstep⟩ := List.mem_filterMap.mp he
  obtain ⟨hcl, -, -⟩ := headingStep_some hstep
  obtain ⟨-, hpage, hlev⟩ := classify_shape hcl
  obtain ⟨h1, h2⟩ := mem_collectDoc hf
  rw [hpage]
  exact ⟨hlev, h1, h2⟩

/-! ### Concrete one-heading document used by the C6/C7 witnesses -/

/-- A one-page document: metadata title "T", page height 100, one line
"Introduction" of size 20 in mid-page. -/
def docW : Doc :=
  ⟨"T".toList, [⟨100, [⟨some [[⟨"Introduction".toList, 20, 0, 50, 55⟩]]⟩]⟩]⟩

/-- The outline the pipeline produces for `docW`. -/
def outlineW : DocumentOutline :=
  ⟨"T".toList, [⟨"H1".toList, "Introduction".toList, 1⟩]⟩

theorem extract_docW : extract_outline (.ok docW) = .ok outlineW := by
  norm_num +decide [docW, outlineW, extract_outline, collectDoc, collectPages, collectPage,
    collectBlocks, collectLine, joinSpanTexts, pyStrip, pyWords, pyWordsAux, pyIsPrintable,
    pyPrintableChar, isPySpace, listMaxQ, listMinQ, find_repeated_elements, marginCounter,
    inMarginZone, bumpCounter, get_heading_levels, mostCommonKeys, pyDistinct, pyDistinctAux,
    insByCount, sortDescQ, insDesc, headingStep, is_valid_heading, digitsDots, pyLower,
    form_words, classify, has_cjk, cjkChar, extract_title, cleanMetaTitle, MAX_PAGES,
    pageHeightOf, List.filterMap, List.take, List.filter]

/-- Closed instance of `c6_outline_filters`. -/
theorem c6_witness :
    (extract_outline (.ok docW) = .ok outlineW) ∧
      (is_valid_heading (⟨"H1".toList, "Introduction".toList, 1⟩ : OutlineEntry).text = true ∧
        (⟨"H1".toList, "Introduction".toList, 1⟩ : OutlineEntry).text ∉
          find_repeated_elements (collectDoc docW.pages) (min docW.pages.length MAX_PAGES)
            (pageHeightOf docW.pages)) :=
  ⟨extract_docW, c6_outline_filters docW outlineW extract_docW _ (by decide)⟩

/-- Closed instance of `c7_entry_invariants`. -/
theorem c7_witness :
    (extract_outline (.ok docW) = .ok outlineW) ∧
      (((⟨"H1".toList, "Introduction".toList, 1⟩ : OutlineEntry).level = "H1".toList ∨
          (⟨"H1".toList, "Introduction".toList, 1⟩ : OutlineEntry).level = "H2".toList ∨
          (⟨"H1".toList, "Introduction".toList, 1⟩ : OutlineEntry).level = "H3".toList) ∧
        1 ≤ (⟨"H1".toList, "Introduction".toList, 1⟩ : OutlineEntry).page ∧
          (⟨"H1".toList, "Introduction".toList, 1⟩ : OutlineEntry).page ≤
            min docW.pages.length MAX_PAGES) :=
  ⟨extract_docW, c7_entry_invariants docW outlineW extract_docW _ (by decide)⟩

/-! ### Helper lemmas: non-emptiness of every title branch -/

theorem head_dropWhile_not_space {l : List Char} {c : Char}
    (h : (l.dropWhile isPySpace).head? = some c) : isPySpace c = false := by
  have hm := List.head?_dropWhile_not isPySpace l
  rw [h] at hm
  exact hm

/-- A stripped string never ends in whitespace. -/
theorem pyStrip_getLast_not_space {m : List Char} {c : Char}
    (h : (pyStrip m).getLast? = some c) : isPySpace c = false := by
  unfold pyStrip at h
  rw [List.getLast?_reverse] at h
  exact head_dropWhile_not_space h

/-- `str.replace` of the pattern cannot empty a string that does not
end in a space, because every deleted occurrence ends in one. -/
theorem stripMsWord_ne_nil : ∀ (n : ℕ) (l : List Char), l.length ≤ n → l ≠ [] →
    l.getLast? ≠ some ' ' → stripMsWord l ≠ [] := by
  intro n
  induction n with
  | zero =>
    intro l hn hne _
    cases l with
    | nil => exact absurd rfl hne
    | cons c rest => simp at hn
  | succ m ih =>
    intro l hn hne hlast
    cases l with
    | nil => exact absurd rfl hne
    | cons c rest =>
      by_cases hm : msWordPat.isPrefixOf (c :: rest) = true
      · obtain ⟨x, hx⟩ := isPre_exists hm
        rw [hx, stripMsWord_pat_append]
        by_cases hxe : x = []
        · exfalso
          apply hlast
          rw [hx, hxe, List.append_nil]
          decide
        · apply ih x ?_ hxe ?_
          · have hlx := congrArg List.length hx
            have h17 : msWordPat.length = 17 := by decide
            simp only [List.length_cons, List.length_append, h17] at hlx
            simp only [List.length_cons] at hn
            omega
          · intro hx'
            apply hlast
            rw [hx, List.getLast?_append, hx']
            rfl
      · rw [Bool.not_eq_true] at hm
        rw [stripMsWord_cons_noMatch hm]
        simp

/-- The metadata branch: cleaning a non-empty stripped title never
yields the empty string. -/
theorem cleanMetaTitle_ne_nil {s : List Char} (hs : s ≠ [])
    (hlast : ∀ c, s.getLast? = some c → isPySpace c = false) :
    cleanMetaTitle s ≠ [] := by
  have ht1ne : (if msWordPat.isPrefixOf s then stripMsWord s else s) ≠ [] := by
    split_ifs with hp
    · apply stripMsWord_ne_nil s.length s le_rfl hs
      intro hl
      have := hlast ' ' hl
      simp [isPySpace] at this
    · exact hs
  set t1 := if msWordPat.isPrefixOf s then stripMsWord s else s with ht1
  show (if docxExt.isSuffixOf t1 then t1.take (t1.length - 4)
    else if docExt.isSuffixOf t1 then t1.take (t1.length - 3)
    else t1) ≠ []
  split_ifs with hdx hd
  · have h5 : (5 : ℕ) ≤ t1.length := by
      have := isSuf_length hdx
      simpa using this
    intro hnil
    have := congrArg List.length hnil
    simp only [List.length_take, List.length_nil] at this
    omega
  · have h4 : (4 : ℕ) ≤ t1.length := by
      have := isSuf_length hd
      simpa using this
    intro hnil
    have := congrArg List.length hnil
    simp only [List.length_take, List.length_nil] at this
    omega
  · exact ht1ne

theorem pyMax2_mem : ∀ (ys : List (ℚ × List Char)) (b : ℚ × List Char),
    pyMax2 b ys = b ∨ pyMax2 b ys ∈ ys := by
  intro ys
  induction ys with
  | nil => intro b; exact Or.inl rfl
  | cons y rest ih =>
    intro b
    have hstep : pyMax2 b (y :: rest) = pyMax2 (if b.1 < y.1 then y else b) rest := rfl
    rw [hstep]
    rcases ih (if b.1 < y.1 then y else b) with h | h
    · rw [h]
      by_cases hb : b.1 < y.1
      · rw [if_pos hb]
        exact Or.inr (List.mem_cons_self y rest)
      · rw [if_neg hb]
        exact Or.inl rfl
    · exact Or.inr (List.mem_cons_of_mem _ h)

theorem pyMaxByFirst_mem {l : List (ℚ × List Char)} {c : ℚ × List Char}
    (h : pyMaxByFirst l = some c) : c ∈ l := by
  cases l with
  | nil => exact Option.noConfusion h
  | cons x xs =>
    rw [pyMaxByFirst] at h
    have h2 := Option.some.inj h
    rcases pyMax2_mem xs x with h' | h'
    · rw [← h2, h']
      exact List.mem_cons_self x xs
    · rw [← h2]
      exact List.mem_cons_of_mem _ h'

/-- The first-page fallback chain yields a non-empty string. -/
theorem firstPageTitle_ne_nil (p : Page) : firstPageTitle p ≠ [] := by
  unfold firstPageTitle
  cases hb : pyMaxByFirst (titleCandidatesBold (pageSpans p)) with
  | some c =>
    show c.2 ≠ []
    obtain ⟨s, -, hs⟩ := List.mem_filterMap.mp (pyMaxByFirst_mem hb)
    simp only [] at hs
    split_ifs at hs with hcond
    have h3 := Option.some.inj hs
    rw [← h3]
    exact hcond.1
  | none =>
    show (match pyMaxByFirst (allSpanTexts (pageSpans p)) with
      | some c => c.2
      | none => untitled) ≠ []
    cases ha : pyMaxByFirst (allSpanTexts (pageSpans p)) with
    | some c =>
      show c.2 ≠ []
      obtain ⟨s, -, hs⟩ := List.mem_filterMap.mp (pyMaxByFirst_mem ha)
      simp only [] at hs
      split_ifs at hs with hcond
      have h3 := Option.some.inj hs
      rw [← h3]
      exact hcond
    | none =>
      show untitled ≠ []
      decide

/-- Every branch of the title extractor yields a non-empty string. -/
theorem extract_title_ne_nil {d : Doc} {t : List Char}
    (h : extract_title d = .ok t) : t ≠ [] := by
  unfold extract_title at h
  split_ifs at h with hmeta
  · have h2 := Except.ok.inj h
    rw [← h2]
    exact cleanMetaTitle_ne_nil hmeta.2 (fun c hc => pyStrip_getLast_not_space hc)
  · cases hp : d.pages with
    | nil =>
      rw [hp] at h
      have h' : (Except.error "page 0 is not in document" : Except String (List Char)) =
        .ok t := h
      exact Except.noConfusion h'
    | cons p rest =>
      rw [hp] at h
      have h' : (Except.ok (firstPageTitle p) : Except String (List Char)) = .ok t := h
      have h2 := Except.ok.inj h'
      rw [← h2]
      exact firstPageTitle_ne_nil p

/-! ### C8 -/

/-- C8 (confirmed): every successfully produced `DocumentOutline` has a
non-empty title — each branch of the title extractor (cleaned metadata,
largest bold span of size at least 15, largest non-empty span, literal
"Untitled PDF") yields a non-empty string. -/
theorem c8_title_nonempty (x : Except String Doc) (r : DocumentOutline)
    (h : extract_outline x = .ok r) : r.title ≠ [] := by
  cases x with
  | error e => exact Except.noConfusion h
  | ok d =>
    obtain ⟨ht, -⟩ := extract_outline_ok h
    exact extract_title_ne_nil ht

/-- Closed instance of `c8_title_nonempty`. -/
theorem c8_witness :
    (extract_outline (.ok ⟨"Budget Report".toList, []⟩) =
      .ok ⟨"Budget Report".toList, []⟩) ∧
      (⟨"Budget Report".toList, []⟩ : DocumentOutline).title ≠ [] :=
  ⟨by decide, c8_title_nonempty (.ok ⟨"Budget Report".toList, []⟩)
    ⟨"Budget Report".toList, []⟩ (by decide)⟩

/-- Closed instance of `c10_removes_all_occurrences`. -/
theorem c10_witness :
    ('M' ∉ "x ".toList) ∧ ('M' ∉ "y".toList) ∧
    (msWordPat.isPrefixOf (msWordPat ++ "x ".toList ++ msWordPat ++ "y".toList) = true ∧
      stripMsWord (msWordPat ++ "x ".toList ++ msWordPat ++ "y".toList) =
        "x ".toList ++ "y".toList) :=
  ⟨by decide, by decide,
    c10_removes_all_occurrences "x ".toList "y".toList (by decide) (by decide)⟩

end Main
